import Mathlib

/-!
Duration codec and media file copier of the boba repository.

A shallow embedding of `src/VideoLengthHandler.cpp` and `src/SaveFiles.cpp`.

* A `std::string` is a list of characters.
* A `std::chrono::seconds` value is its tick count, an integer.  The count is a signed
  64-bit number in the program; the three `int` components that `parseDuration` combines are
  32-bit, so their combination never leaves that range.  The sum and the difference of two
  counts are computed as the machine computes them, wrapping around at the ends of the
  64-bit range.
* The string streams are explicit states that are passed along.
* Code that throws returns `Except`; an exception that nothing catches ends the run of
  `main`, which is the outcome `terminated`.
-/

/-! ## The parts of the C++ standard library that the program calls -/

/-- The exceptions thrown by `std::stoi`. -/
inductive StoiError where
  | invalid_argument
  | out_of_range
  deriving DecidableEq, Repr

/-- The C locale `isspace`, the characters that `strtol` skips first. -/
def isspace (c : Char) : Bool :=
  c == ' ' || c == '\t' || c == '\n' || c == '\x0b' || c == '\x0c' || c == '\r'

/-- The C locale `isdigit`. -/
def isdigit (c : Char) : Bool :=
  decide ('0'.toNat ≤ c.toNat) && decide (c.toNat ≤ '9'.toNat)

/-- The value of a run of decimal digits, most significant digit first. -/
def digitsValue (ds : List Char) : Nat :=
  ds.foldl (fun acc c => 10 * acc + (c.toNat - '0'.toNat)) 0

/-- Smallest value of a 32-bit `int`. -/
def INT_MIN : Int := -2147483648

/-- Largest value of a 32-bit `int`. -/
def INT_MAX : Int := 2147483647

/-- The optional sign that `strtol` accepts in front of the digits: whether it is a minus,
and the characters after it. -/
def stoiSign : List Char → Bool × List Char
  | '-' :: t => (true, t)
  | '+' :: t => (false, t)
  | s => (false, s)

/-- The call `std::stoi(str)` (base 10, no position output): leading white space is skipped, an
optional sign is read, then the longest run of digits; what follows the digits is ignored.
No digit at all throws `std::invalid_argument`, a value that does not fit an `int` throws
`std::out_of_range`. -/
def stoi (str : List Char) : Except StoiError Int :=
  let afterSpace := str.dropWhile isspace
  let signed := stoiSign afterSpace
  let ds := signed.2.takeWhile isdigit
  if ds.isEmpty then
    Except.error StoiError.invalid_argument
  else
    let magnitude : Int := (digitsValue ds : Nat)
    let v : Int := if signed.1 then -magnitude else magnitude
    if INT_MIN ≤ v ∧ v ≤ INT_MAX then Except.ok v else Except.error StoiError.out_of_range

/-- An input string stream: the characters not yet read, and whether the stream is still
`good()` (neither `eofbit` nor `failbit` is set). -/
structure IStringStream where
  buf : List Char
  good : Bool
  deriving DecidableEq, Repr

/-- The constructor `std::istringstream iss(str)`. -/
def istringstream (str : List Char) : IStringStream :=
  { buf := str, good := true }

/-- Characters up to the first `delim`, and the characters after that `delim` when there is
one (`none` when the input ends first). -/
def splitDelim (delim : Char) : List Char → List Char × Option (List Char)
  | [] => ([], none)
  | c :: cs =>
    if c = delim then ([], some cs)
    else ((splitDelim delim cs).1.cons c, (splitDelim delim cs).2)

/-- The call `std::getline(is, token, delim)`, with the truth value of the returned stream
(`!fail()`) given as `some token` or `none`.  A stream that is not good fails at once.
Otherwise characters are taken up to `delim`, which is removed from the input and not stored.
Reaching the end of the input sets `eofbit`; the call fails only when nothing at all was
extracted. -/
def getline (is : IStringStream) (delim : Char) : Option (List Char) × IStringStream :=
  if is.good then
    match splitDelim delim is.buf with
    | (token, some rest) => (some token, { buf := rest, good := true })
    | (token, none) =>
      if token.isEmpty then (none, { buf := [], good := false })
      else (some token, { buf := [], good := false })
  else (none, is)

/-- An output string stream: the characters written so far, the fill character and the field
width that the next formatted output uses. -/
structure OStringStream where
  out : List Char
  fill : Char
  width : Nat
  deriving DecidableEq, Repr

/-- A fresh `std::stringstream`: nothing written, fill character blank, width 0. -/
def stringstream : OStringStream :=
  { out := [], fill := ' ', width := 0 }

/-- The manipulator `std::setfill(c)`. -/
def setfill (c : Char) (ss : OStringStream) : OStringStream :=
  { ss with fill := c }

/-- The manipulator `std::setw(n)`. -/
def setw (n : Nat) (ss : OStringStream) : OStringStream :=
  { ss with width := n }

/-- The decimal digit character of a number below ten. -/
def digitChar (n : Nat) : Char :=
  Char.ofNat ('0'.toNat + n)

/-- Decimal digits of a natural number, most significant first, put in front of `acc`.
The first argument bounds the number of digits. -/
def natDigitsAux : Nat → Nat → List Char → List Char
  | 0, _, acc => acc
  | fuel + 1, n, acc =>
    if n < 10 then digitChar n :: acc
    else natDigitsAux fuel (n / 10) (digitChar (n % 10) :: acc)

/-- Decimal rendering of a natural number, without leading zeros (`0` is "0"). -/
def natDigits (n : Nat) : List Char :=
  natDigitsAux (n + 1) n []

/-- Decimal rendering of an integer as `operator<<` prints it with the default flags: a minus
sign for negative values, no plus sign, no grouping. -/
def intDigits (v : Int) : List Char :=
  if v < 0 then '-' :: natDigits v.natAbs else natDigits v.natAbs

/-- Formatted output of a character sequence: with the default adjustment the text is
right-aligned, so a text shorter than the field width gets fill characters in front; a longer
text is written whole.  The width is reset to 0 afterwards. -/
def putField (text : List Char) (ss : OStringStream) : OStringStream :=
  { out := ss.out ++ (List.replicate (ss.width - text.length) ss.fill ++ text),
    fill := ss.fill,
    width := 0 }

/-- The insertion `ss << v` for an integer. -/
def putInt (v : Int) (ss : OStringStream) : OStringStream :=
  putField (intDigits v) ss

/-- The insertion `ss << text` for a string literal. -/
def putStr (text : List Char) (ss : OStringStream) : OStringStream :=
  putField text ss

namespace VideoLengthHandler

/-- A `std::chrono::seconds` value: its count of seconds. -/
abbrev Duration := Int

/-- The function `formatDuration`.  The `duration_cast` to a coarser unit truncates toward
zero, and `%` on durations is the truncating remainder of the tick counts. -/
def formatDuration (duration : Duration) : List Char :=
  let hours := Int.tdiv duration 3600
  let minutes := Int.tdiv (Int.tmod duration 3600) 60
  let seconds := Int.tmod duration 60
  let ss := stringstream
  let ss := putInt hours (setw 2 (setfill '0' ss))
  let ss := putStr [':'] ss
  let ss := putInt minutes (setw 2 (setfill '0' ss))
  let ss := putStr [':'] ss
  let ss := putInt seconds (setw 2 (setfill '0' ss))
  ss.out

/-- The function `parseDuration`.  Each `std::stoi` may throw; a token that `getline` could
not read leaves its component and the later ones at 0. -/
def parseDuration (durationStr : List Char) : Except StoiError Duration :=
  let iss := istringstream durationStr
  match getline iss ':' with
  | (none, _) => Except.ok (3600 * 0 + 60 * 0 + 0)
  | (some token, iss) =>
    match stoi token with
    | Except.error e => Except.error e
    | Except.ok hours =>
      match getline iss ':' with
      | (none, _) => Except.ok (3600 * hours + 60 * 0 + 0)
      | (some token, iss) =>
        match stoi token with
        | Except.error e => Except.error e
        | Except.ok minutes =>
          match getline iss '\n' with
          | (none, _) => Except.ok (3600 * hours + 60 * minutes + 0)
          | (some token, _) =>
            match stoi token with
            | Except.error e => Except.error e
            | Except.ok seconds => Except.ok (3600 * hours + 60 * minutes + seconds)

end VideoLengthHandler

/-! ## The parts of `std::filesystem` that the program calls -/

/-- The algorithm `std::find` over a vector: the position of the first element equal to
`value`, or the length of the vector (the `end()` iterator) when there is none. -/
def find (v : List (List Char)) (value : List Char) : Nat :=
  match v with
  | [] => 0
  | x :: xs => if x = value then 0 else find xs value + 1

/-- The C locale `tolower`: the letters `A` to `Z` go to `a` to `z`, every other character is
left as it is. -/
def tolower (c : Char) : Char :=
  if 'A'.toNat ≤ c.toNat ∧ c.toNat ≤ 'Z'.toNat then Char.ofNat (c.toNat + 32) else c

/-- The member `path::filename()` for the generic pathname format with `/` as the directory
separator: what follows the last separator. -/
def filename (path : List Char) : List Char :=
  (path.reverse.takeWhile (fun c => c != '/')).reverse

/-- The member `path::extension()`: empty for the file names `.` and `..`, for a file name
without a period and for one whose only period is its first character; otherwise the file name
from its last period on. -/
def extension (path : List Char) : List Char :=
  let name := filename path
  if name = ['.'] ∨ name = ['.', '.'] then []
  else
    let afterDot := (name.reverse.takeWhile (fun c => c != '.')).reverse
    if name.contains '.' ∧ afterDot.length + 1 < name.length then '.' :: afterDot else []

/-- An entry that `recursive_directory_iterator` yields: its path, and what
`is_regular_file()` answers for it. -/
structure DirEntry where
  path : List Char
  is_regular_file : Bool
  deriving DecidableEq, Repr

/-- The exception `filesystem_error`, with the text of `what()`. -/
structure filesystem_error where
  what : List Char
  deriving DecidableEq, Repr

/-- The state that the copier reads and changes: the regular files with their content, the
directories, the calls of `copy_file` made so far (source and destination, oldest first), and
the lines written to `std::cout` and `std::cerr`.  Files and directories are listed by
path, one entry for each path; there are no links, so that a write through one path changes
the entry of no other path. -/
structure World where
  files : List Char → Option (List Char)
  dirs : List Char → Bool
  copies : List (List Char × List Char)
  cout : List (List Char)
  cerr : List (List Char)

/-- What the program takes from its surroundings:
* `listing`: the entries that `recursive_directory_iterator(dir)` yields, in its order;
* `faults`: for the n-th call of `copy_file` (counted from 0) the error that the file system
  raises while the file is copied, for a reason outside `World` (permission denied, disk
  full, ...), if any;
* `written`: for a call that ends by such an error, how many characters of the source had
  reached the destination, or `none` when the destination had not been opened yet;
* `equivalent`: whether two different paths name the same existing file (`fs::equivalent`);
* `status`: the error that reading the status of a path raises (name too long, symlink loop,
  permission denied, ...), if any. -/
structure Env where
  listing : List Char → List DirEntry
  faults : Nat → Option filesystem_error
  written : Nat → Option Nat
  equivalent : List Char → List Char → Bool
  status : List Char → Option filesystem_error

/-- The error of `copy_file` for a source that is not an existing regular file.  The text
of `what()` is implementation-defined; the model fixes one. -/
def sourceMissing : filesystem_error :=
  { what := "cannot copy file: No such file or directory".toList }

/-- The error of `copy_file` for a destination that is the source file itself. -/
def sameFile : filesystem_error :=
  { what := "cannot copy file: File exists".toList }

/-- The error of `copy_file` for a destination that exists and is not a regular file. -/
def notRegular : filesystem_error :=
  { what := "cannot copy file: Invalid argument".toList }

/-- The error of `copy_file` for a destination without a file name or whose directory
does not exist. -/
def noSuchDirectory : filesystem_error :=
  { what := "cannot copy file: No such file or directory".toList }

/-- The member `path::parent_path()` for a path with a file name: what stands before the
last `/`; empty for a path without a `/`, which names a file of the current directory. -/
def parentPath (path : List Char) : List Char :=
  ((path.reverse.dropWhile (fun c => c != '/')).drop 1).reverse

/-- The call `fs::copy_file(source, destination, fs::copy_options::overwrite_existing)`.
It throws, with nothing changed, when the source is not a regular file, when the destination
is a directory, when source and destination are the same file, and when the destination has
no file name or its directory does not exist.  Otherwise the destination is opened and emptied and the
content is copied: without a fault the destination holds a copy of the source afterwards,
whether it existed before or not; a fault ends the copy by an error, and if the destination
had been opened it is left with the part of the content that had been written. -/
def copy_file (env : Env) (w : World) (sourcePath destinationPath : List Char) :
    Except filesystem_error Unit × World :=
  let w1 := { w with copies := w.copies ++ [(sourcePath, destinationPath)] }
  match w.files sourcePath with
  | none => (Except.error sourceMissing, w1)
  | some content =>
    if w.dirs destinationPath then (Except.error notRegular, w1)
    else if sourcePath = destinationPath ∨ env.equivalent sourcePath destinationPath = true then
      (Except.error sameFile, w1)
    else if filename destinationPath = []
        ∨ (parentPath destinationPath ≠ [] ∧ w.dirs (parentPath destinationPath) = false) then
      (Except.error noSuchDirectory, w1)
    else
      match env.faults w.copies.length with
      | none =>
        (Except.ok (),
          { w1 with files := fun p => if p = destinationPath then some content else w.files p })
      | some e =>
        match env.written w.copies.length with
        | none => (Except.error e, w1)
        | some n =>
          (Except.error e,
            { w1 with
              files := fun p => if p = destinationPath then some (content.take n) else w.files p })

/-! ## SaveFiles.cpp -/

namespace FileSaver

/-- The function `saveFile`: the `filesystem_error` of the copy is caught and turned into
the result `false`. -/
def saveFile (env : Env) (w : World) (sourcePath destinationPath : List Char) : Bool × World :=
  match copy_file env w sourcePath destinationPath with
  | (Except.ok _, w1) =>
    (true, { w1 with cout := w1.cout ++ ["File saved successfully: ".toList ++ destinationPath] })
  | (Except.error e, w1) =>
    (false, { w1 with cerr := w1.cerr ++ ["Error saving file: ".toList ++ e.what] })

/-- The vector `supportedExtensions` of `isSupported`. -/
def supportedExtensions : List (List Char) :=
  [ -- Audio files
    ".mp3".toList, ".wav".toList, ".ogg".toList, ".flac".toList, ".aac".toList, ".wma".toList,
    ".m4a".toList,
    -- Video files
    ".mp4".toList, ".avi".toList, ".mkv".toList, ".mov".toList, ".wmv".toList, ".flv".toList,
    ".webm".toList,
    -- Image files
    ".jpg".toList, ".jpeg".toList, ".png".toList, ".gif".toList, ".bmp".toList, ".tiff".toList,
    ".webp".toList ]

/-- The function `isSupported`: whether `std::find` stops before `end()`. -/
def isSupported (extension : List Char) : Bool :=
  find supportedExtensions extension != supportedExtensions.length

/-- The body of the loop of `saveAllSupportedFiles` for one entry. -/
def saveEntry (env : Env) (destinationDir : List Char) (w : World) (entry : DirEntry) : World :=
  if entry.is_regular_file then
    let extension := (extension entry.path).map tolower
    if isSupported extension then
      let destPath := destinationDir ++ "/".toList ++ filename entry.path
      (saveFile env w entry.path destPath).2
    else w
  else w

/-- The function `saveAllSupportedFiles`: the loop over the entries of the source tree. -/
def saveAllSupportedFiles (env : Env) (w : World) (sourceDir destinationDir : List Char) : World :=
  (env.listing sourceDir).foldl (saveEntry env destinationDir) w

end FileSaver

/-! ## The driver of SaveFiles.cpp -/

namespace SaveFiles

end SaveFiles

/-- A world with the given directories and regular files and nothing else. -/
def worldWith (dirs : List (List Char)) (files : List (List Char × List Char)) : World :=
  { files := fun p => (files.find? (fun f => f.1 == p)).map (fun f => f.2),
    dirs := fun p => dirs.contains p,
    copies := [],
    cout := [],
    cerr := [] }

/-! ## The notions that the specification uses -/

/-- An unsigned decimal numeral: a run of at least one decimal digit. -/
def isNumeral (t : List Char) : Bool :=
  !t.isEmpty && t.all isdigit

/-- A decimal integer numeral: an unsigned numeral, possibly after one sign. -/
def isIntNumeral : List Char → Bool
  | '-' :: t => isNumeral t
  | '+' :: t => isNumeral t
  | t => isNumeral t

/-- The integer that a decimal integer numeral denotes. -/
def intNumeralValue : List Char → Int
  | '-' :: t => -(digitsValue t : Int)
  | '+' :: t => (digitsValue t : Int)
  | t => (digitsValue t : Int)

/-- Whether an integer is the value of a 32-bit `int`. -/
def fitsInt (v : Int) : Prop :=
  INT_MIN ≤ v ∧ v ≤ INT_MAX

/-- The padding of the specification: the decimal rendering, with zeros put in front of it
until it is two characters wide; a wider rendering is kept whole. -/
def pad2 (v : Int) : List Char :=
  if (intDigits v).length < 2 then
    List.replicate (2 - (intDigits v).length) '0' ++ intDigits v
  else intDigits v

/-- The format of the specification: hours, minutes and seconds by truncating division and
remainder, each padded to two characters, with colons between them. -/
def formatSpec (d : Int) : List Char :=
  pad2 (Int.tdiv d 3600) ++ ":".toList ++ pad2 (Int.tdiv (Int.tmod d 3600) 60) ++ ":".toList
    ++ pad2 (Int.tmod d 60)

/-- An uppercase ASCII letter. -/
def isUpperAscii (c : Char) : Bool :=
  decide ('A'.toNat ≤ c.toNat) && decide (c.toNat ≤ 'Z'.toNat)

/-- The selection rule of the specification: a regular file whose extension, put in lower
case, is supported. -/
def selected (entry : DirEntry) : Bool :=
  entry.is_regular_file && FileSaver.isSupported ((extension entry.path).map tolower)

/-- The destination of the specification for a source path: the destination directory, a
slash, and the base name of the source. -/
def flattened (destinationDir sourcePath : List Char) : List Char :=
  destinationDir ++ "/".toList ++ filename sourcePath

/-- An environment without faults, with a fixed listing for every directory. -/
def quietEnv (entries : List DirEntry) : Env :=
  { listing := fun _ => entries,
    faults := fun _ => none,
    written := fun _ => none,
    equivalent := fun _ _ => false,
    status := fun _ => none }

/-- A world that holds the given regular files and nothing else. -/
def worldOf (files : List (List Char × List Char)) : World :=
  { files := fun p => (files.find? (fun f => f.1 == p)).map (fun f => f.2),
    dirs := fun _ => false,
    copies := [],
    cout := [],
    cerr := [] }

/-- The rendering of a field of a negative duration in the specification: "00" for a field
that is zero, and otherwise a minus sign of its own in front of the digits of the field. -/
def signedField (v : Int) : List Char :=
  if v = 0 then ['0', '0'] else '-' :: natDigits v.natAbs

/-- The tokens that `parseDuration` reads from its input when no conversion fails: up to
three, the first two ended by a colon and the third by the end of the line. -/
def tokensRead (durationStr : List Char) : List (List Char) :=
  match getline (istringstream durationStr) ':' with
  | (none, _) => []
  | (some t1, is1) =>
    t1 :: (match getline is1 ':' with
      | (none, _) => []
      | (some t2, is2) =>
        t2 :: (match getline is2 '\n' with
          | (none, _) => []
          | (some t3, _) => [t3]))

/-- Whether a character sequence begins with a decimal digit. -/
def firstIsDigit : List Char → Bool
  | c :: _ => isdigit c
  | [] => false

/-- Whether a token begins with a decimal integer numeral: after white space, if any, an
optional sign and then at least one digit. -/
def startsWithNumeral (t : List Char) : Bool :=
  match t.dropWhile isspace with
  | '-' :: rest => firstIsDigit rest
  | '+' :: rest => firstIsDigit rest
  | rest => firstIsDigit rest

/-- An environment in which every call of `copy_file` fails, with a fixed listing for every
directory. -/
def failingEnv (entries : List DirEntry) : Env :=
  { listing := fun _ => entries,
    faults := fun _ => some { what := "cannot copy file: Permission denied".toList },
    written := fun _ => none,
    equivalent := fun _ _ => false,
    status := fun _ => none }

/-- A lowercase ASCII letter or a decimal digit. -/
def isLowerOrDigit (c : Char) : Bool :=
  (decide ('a'.toNat ≤ c.toNat) && decide (c.toNat ≤ 'z'.toNat)) || isdigit c

open VideoLengthHandler FileSaver

/-! ## Streams and `std::stoi` -/

theorem splitDelim_found (delim : Char) (t rest : List Char) (h : delim ∉ t) :
    splitDelim delim (t ++ delim :: rest) = (t, some rest) := by
  induction t with
  | nil => simp [splitDelim]
  | cons c cs ih =>
    have hc : c ≠ delim := fun e => h (by simp [e])
    have hcs : delim ∉ cs := fun e => h (by simp [e])
    simp [splitDelim, hc, ih hcs]

theorem splitDelim_absent (delim : Char) (t : List Char) (h : delim ∉ t) :
    splitDelim delim t = (t, none) := by
  induction t with
  | nil => simp [splitDelim]
  | cons c cs ih =>
    have hc : c ≠ delim := fun e => h (by simp [e])
    have hcs : delim ∉ cs := fun e => h (by simp [e])
    simp [splitDelim, hc, ih hcs]

theorem getline_found (delim : Char) (t rest : List Char) (h : delim ∉ t) :
    getline { buf := t ++ delim :: rest, good := true } delim
      = (some t, { buf := rest, good := true }) := by
  simp [getline, splitDelim_found delim t rest h]

theorem getline_last (delim : Char) (t : List Char) (h : delim ∉ t) (hne : t ≠ []) :
    getline { buf := t, good := true } delim = (some t, { buf := [], good := false }) := by
  simp [getline, splitDelim_absent delim t h, hne]

theorem getline_end (delim : Char) :
    getline { buf := [], good := true } delim = (none, { buf := [], good := false }) := by
  simp [getline, splitDelim]

theorem getline_not_good (delim : Char) (b : List Char) :
    getline { buf := b, good := false } delim = (none, { buf := b, good := false }) := by
  simp [getline]

theorem isdigit_iff (c : Char) : isdigit c = true ↔ 48 ≤ c.toNat ∧ c.toNat ≤ 57 := by
  simp [isdigit]

theorem isdigit_not_isspace (c : Char) (h : isdigit c = true) : isspace c = false := by
  rw [isdigit_iff] at h
  simp only [isspace, Bool.or_eq_false_iff, beq_eq_false_iff_ne, ne_eq]
  refine ⟨⟨⟨⟨⟨?_, ?_⟩, ?_⟩, ?_⟩, ?_⟩, ?_⟩ <;> rintro rfl <;> simp at h

theorem isdigit_ne (c d : Char) (h : isdigit c = true) (hd : isdigit d = false) : c ≠ d := by
  rintro rfl
  simp [h] at hd

theorem stoiSign_digit (c : Char) (cs : List Char) (h : isdigit c = true) :
    stoiSign (c :: cs) = (false, c :: cs) := by
  have h1 : c ≠ '-' := isdigit_ne c '-' h (by decide)
  have h2 : c ≠ '+' := isdigit_ne c '+' h (by decide)
  simp [stoiSign, h1, h2]

theorem takeWhile_isdigit_self (ds : List Char) (h : ds.all isdigit = true) :
    ds.takeWhile isdigit = ds := by
  rw [List.takeWhile_eq_self_iff]
  simpa using h

theorem stoi_unsigned (ds : List Char) (h : isNumeral ds = true)
    (hfit : (digitsValue ds : Int) ≤ INT_MAX) :
    stoi ds = Except.ok (digitsValue ds : Int) := by
  cases ds with
  | nil => simp [isNumeral] at h
  | cons c cs =>
    have hall : (c :: cs).all isdigit = true := by
      simpa [isNumeral] using h
    have hc : isdigit c = true := by
      simp at hall; exact hall.1
    have hlow : INT_MIN ≤ (digitsValue (c :: cs) : Int) := by
      have : (0 : Int) ≤ (digitsValue (c :: cs) : Int) := Int.ofNat_nonneg _
      simp only [INT_MIN]; omega
    simp only [stoi]
    rw [List.dropWhile_cons, isdigit_not_isspace c hc]
    simp only [Bool.false_eq_true, if_false, stoiSign_digit c cs hc,
      takeWhile_isdigit_self _ hall, List.isEmpty_cons, hlow, hfit, and_self, if_true]

theorem stoi_minus (ds : List Char) (h : isNumeral ds = true)
    (hfit : INT_MIN ≤ -(digitsValue ds : Int)) :
    stoi ('-' :: ds) = Except.ok (-(digitsValue ds : Int)) := by
  cases ds with
  | nil => simp [isNumeral] at h
  | cons c cs =>
    have hall : (c :: cs).all isdigit = true := by
      simpa [isNumeral] using h
    have hup : -(digitsValue (c :: cs) : Int) ≤ INT_MAX := by
      have : (0 : Int) ≤ (digitsValue (c :: cs) : Int) := Int.ofNat_nonneg _
      simp only [INT_MAX]; omega
    have hsp : isspace '-' = false := by decide
    simp only [stoi]
    rw [List.dropWhile_cons, hsp]
    simp only [Bool.false_eq_true, if_false, stoiSign,
      takeWhile_isdigit_self _ hall, List.isEmpty_cons, hup, hfit, and_self, if_true]

theorem stoi_plus (ds : List Char) (h : isNumeral ds = true)
    (hfit : (digitsValue ds : Int) ≤ INT_MAX) :
    stoi ('+' :: ds) = Except.ok (digitsValue ds : Int) := by
  cases ds with
  | nil => simp [isNumeral] at h
  | cons c cs =>
    have hall : (c :: cs).all isdigit = true := by
      simpa [isNumeral] using h
    have hlow : INT_MIN ≤ (digitsValue (c :: cs) : Int) := by
      have : (0 : Int) ≤ (digitsValue (c :: cs) : Int) := Int.ofNat_nonneg _
      simp only [INT_MIN]; omega
    have hsp : isspace '+' = false := by decide
    simp only [stoi]
    rw [List.dropWhile_cons, hsp]
    simp only [Bool.false_eq_true, if_false, stoiSign,
      takeWhile_isdigit_self _ hall, List.isEmpty_cons, hlow, hfit, and_self, if_true]

theorem isIntNumeral_cases (t : List Char) (h : isIntNumeral t = true) :
    (isNumeral t = true ∧ intNumeralValue t = (digitsValue t : Int))
    ∨ (∃ ds, t = '-' :: ds ∧ isNumeral ds = true ∧ intNumeralValue t = -(digitsValue ds : Int))
    ∨ (∃ ds, t = '+' :: ds ∧ isNumeral ds = true ∧ intNumeralValue t = (digitsValue ds : Int)) := by
  cases t with
  | nil => simp [isIntNumeral, isNumeral] at h
  | cons c cs =>
    by_cases h1 : c = '-'
    · subst h1
      exact Or.inr (Or.inl ⟨cs, rfl, by simpa [isIntNumeral] using h, by simp [intNumeralValue]⟩)
    · by_cases h2 : c = '+'
      · subst h2
        exact Or.inr (Or.inr ⟨cs, rfl, by simpa [isIntNumeral] using h, by simp [intNumeralValue]⟩)
      · refine Or.inl ⟨?_, ?_⟩
        · simpa [isIntNumeral, h1, h2] using h
        · simp [intNumeralValue, h1, h2]

theorem stoi_intNumeral (t : List Char) (h : isIntNumeral t = true)
    (hfit : fitsInt (intNumeralValue t)) :
    stoi t = Except.ok (intNumeralValue t) := by
  rcases isIntNumeral_cases t h with ⟨hn, hv⟩ | ⟨ds, rfl, hn, hv⟩ | ⟨ds, rfl, hn, hv⟩
  · rw [hv] at hfit ⊢
    exact stoi_unsigned t hn hfit.2
  · rw [hv] at hfit ⊢
    exact stoi_minus ds hn hfit.1
  · rw [hv] at hfit ⊢
    exact stoi_plus ds hn hfit.2

theorem isNumeral_not_mem (t : List Char) (h : isNumeral t = true) (d : Char)
    (hd : isdigit d = false) : d ∉ t := by
  intro hmem
  have hall : ∀ x ∈ t, isdigit x = true := by
    have := h
    simp [isNumeral] at this
    exact this.2
  rw [hall d hmem] at hd
  exact Bool.noConfusion hd

theorem isIntNumeral_not_mem (t : List Char) (h : isIntNumeral t = true) (d : Char)
    (hd : isdigit d = false) (hm : d ≠ '-') (hp : d ≠ '+') : d ∉ t := by
  rcases isIntNumeral_cases t h with ⟨hn, _⟩ | ⟨ds, rfl, hn, _⟩ | ⟨ds, rfl, hn, _⟩
  · exact isNumeral_not_mem t hn d hd
  · intro hmem
    rcases List.mem_cons.1 hmem with e | e
    · exact hm e
    · exact isNumeral_not_mem ds hn d hd e
  · intro hmem
    rcases List.mem_cons.1 hmem with e | e
    · exact hp e
    · exact isNumeral_not_mem ds hn d hd e

theorem isIntNumeral_ne_nil (t : List Char) (h : isIntNumeral t = true) : t ≠ [] := by
  rintro rfl
  simp [isIntNumeral, isNumeral] at h

/-! ## `parseDuration` on one, two and three tokens -/

theorem parseDuration_three (th tm ts : List Char) (h m s : Int)
    (hth : ':' ∉ th) (htm : ':' ∉ tm) (hts : '\n' ∉ ts) (hne : ts ≠ [])
    (hh : stoi th = Except.ok h) (hm : stoi tm = Except.ok m) (hs : stoi ts = Except.ok s) :
    parseDuration (th ++ ':' :: (tm ++ ':' :: ts)) = Except.ok (3600 * h + 60 * m + s) := by
  simp only [parseDuration, istringstream, getline_found ':' th _ hth, hh,
    getline_found ':' tm _ htm, hm, getline_last '\n' ts hts hne, hs]

theorem parseDuration_two (th tm : List Char) (h m : Int)
    (hth : ':' ∉ th) (htm : ':' ∉ tm) (hne : tm ≠ [])
    (hh : stoi th = Except.ok h) (hm : stoi tm = Except.ok m) :
    parseDuration (th ++ ':' :: tm) = Except.ok (3600 * h + 60 * m) := by
  simp only [parseDuration, istringstream, getline_found ':' th _ hth, hh,
    getline_last ':' tm htm hne, hm, getline_not_good, add_zero]

theorem parseDuration_one (th : List Char) (h : Int)
    (hth : ':' ∉ th) (hne : th ≠ [])
    (hh : stoi th = Except.ok h) :
    parseDuration th = Except.ok (3600 * h) := by
  simp only [parseDuration, istringstream, getline_last ':' th hth hne, hh,
    getline_not_good, mul_zero, add_zero]

theorem stoi_fitsInt (t : List Char) (v : Int) (h : stoi t = Except.ok v) : fitsInt v := by
  simp only [stoi] at h
  split_ifs at h with h1 h2 h3 h4
  all_goals first
    | exact Except.noConfusion h
    | (rw [← Except.ok.inj h]; simpa [fitsInt, h2] using h3)
    | (rw [← Except.ok.inj h]; simpa [fitsInt, h2] using h4)

theorem parseDuration_representable (str : List Char) (d : Duration)
    (h : parseDuration str = Except.ok d) :
    -9223372036854775808 ≤ d ∧ d ≤ 9223372036854775807 := by
  have bound : ∀ x y z : Int, fitsInt x → fitsInt y → fitsInt z →
      -9223372036854775808 ≤ 3600 * x + 60 * y + z
        ∧ 3600 * x + 60 * y + z ≤ 9223372036854775807 := by
    intro x y z hx hy hz
    simp only [fitsInt, INT_MIN, INT_MAX] at hx hy hz
    omega
  have zero : fitsInt 0 := by
    simp only [fitsInt, INT_MIN, INT_MAX]; omega
  simp only [parseDuration] at h
  split at h
  · rw [← Except.ok.inj h]; exact bound 0 0 0 zero zero zero
  · split at h
    · exact Except.noConfusion h
    · next hours hh =>
      split at h
      · rw [← Except.ok.inj h]; exact bound hours 0 0 (stoi_fitsInt _ _ hh) zero zero
      · split at h
        · exact Except.noConfusion h
        · next minutes hm =>
          split at h
          · rw [← Except.ok.inj h]
            exact bound hours minutes 0 (stoi_fitsInt _ _ hh) (stoi_fitsInt _ _ hm) zero
          · split at h
            · exact Except.noConfusion h
            · next seconds hs =>
              rw [← Except.ok.inj h]
              exact bound hours minutes seconds (stoi_fitsInt _ _ hh) (stoi_fitsInt _ _ hm)
                (stoi_fitsInt _ _ hs)

/-! ## `formatDuration` -/

theorem pad2_eq (v : Int) :
    pad2 v = List.replicate (2 - (intDigits v).length) '0' ++ intDigits v := by
  unfold pad2
  split
  · rfl
  · next h =>
    have : 2 - (intDigits v).length = 0 := by omega
    simp [this]

theorem formatDuration_eq_formatSpec (d : Int) : formatDuration d = formatSpec d := by
  simp only [formatDuration, formatSpec, pad2_eq, putInt, putStr, putField, setw, setfill,
    stringstream, String.toList]
  simp

theorem tdiv_tmod_hms (H M S : Nat) (hM : M < 60) (hS : S < 60) :
    Int.tdiv (3600 * (H : Int) + 60 * (M : Int) + (S : Int)) 3600 = (H : Int)
    ∧ Int.tdiv (Int.tmod (3600 * (H : Int) + 60 * (M : Int) + (S : Int)) 3600) 60 = (M : Int)
    ∧ Int.tmod (3600 * (H : Int) + 60 * (M : Int) + (S : Int)) 60 = (S : Int) := by
  have h0 : (0 : Int) ≤ 3600 * (H : Int) + 60 * (M : Int) + (S : Int) := by omega
  rw [Int.tdiv_eq_ediv h0 (by norm_num), Int.tmod_eq_emod h0 (by norm_num),
    Int.tmod_eq_emod h0 (by norm_num)]
  have h1 : (0 : Int) ≤ (3600 * (H : Int) + 60 * (M : Int) + (S : Int)) % 3600 :=
    Int.emod_nonneg _ (by norm_num)
  rw [Int.tdiv_eq_ediv h1 (by norm_num)]
  omega

theorem pad2_two_digits (x1 x0 : Nat) (h1 : x1 < 10) (h0 : x0 < 10) :
    pad2 ((10 * x1 + x0 : Nat) : Int) = [digitChar x1, digitChar x0] := by
  interval_cases x1 <;> interval_cases x0 <;> rfl

theorem isdigit_digitChar (c : Char) (h : isdigit c = true) :
    c.toNat - 48 < 10 ∧ c = digitChar (c.toNat - 48) := by
  rw [isdigit_iff] at h
  refine ⟨by omega, ?_⟩
  have e : '0'.toNat + (c.toNat - 48) = c.toNat := by
    have : '0'.toNat = 48 := by decide
    omega
  rw [digitChar, e, Char.ofNat_toNat]

theorem digitsValue_pair (a b : Char) :
    digitsValue [a, b] = 10 * (a.toNat - 48) + (b.toNat - 48) := by
  have : '0'.toNat = 48 := by decide
  simp [digitsValue, this]

theorem isNumeral_pair (a b : Char) (ha : isdigit a = true) (hb : isdigit b = true) :
    isNumeral [a, b] = true := by
  simp [isNumeral, ha, hb]

/-! ## The duration codec: the claims -/

theorem parseDuration_hms (a b c d e f : Char)
    (ha : isdigit a = true) (hb : isdigit b = true) (hc : isdigit c = true)
    (hd : isdigit d = true) (he : isdigit e = true) (hf : isdigit f = true) :
    parseDuration [a, b, ':', c, d, ':', e, f]
      = Except.ok (3600 * ((10 * (a.toNat - 48) + (b.toNat - 48) : Nat) : Int)
          + 60 * ((10 * (c.toNat - 48) + (d.toNat - 48) : Nat) : Int)
          + ((10 * (e.toNat - 48) + (f.toNat - 48) : Nat) : Int)) := by
  have colon : isdigit ':' = false := by decide
  have newline : isdigit '\n' = false := by decide
  have fit : ∀ x y : Char, isdigit x = true → isdigit y = true →
      stoi [x, y] = Except.ok ((10 * (x.toNat - 48) + (y.toNat - 48) : Nat) : Int) := by
    intro x y hx hy
    have hv := digitsValue_pair x y
    have hx2 := (isdigit_iff x).1 hx
    have hy2 := (isdigit_iff y).1 hy
    have := stoi_unsigned [x, y] (isNumeral_pair x y hx hy) (by
      rw [hv]; simp only [INT_MAX]; omega)
    rw [hv] at this
    exact this
  have := parseDuration_three [a, b] [c, d] [e, f] _ _ _
    (isNumeral_not_mem _ (isNumeral_pair a b ha hb) ':' colon)
    (isNumeral_not_mem _ (isNumeral_pair c d hc hd) ':' colon)
    (isNumeral_not_mem _ (isNumeral_pair e f he hf) '\n' newline)
    (by simp) (fit a b ha hb) (fit c d hc hd) (fit e f he hf)
  simpa using this

/-- C1: for every string "HH:MM:SS" of three two-digit fields of decimal digits whose minutes
and seconds fields are at most 59 (their first digit is at most 5), `parseDuration` returns a
duration, and `formatDuration` of that duration is the string again. -/
theorem format_parse_roundtrip (a b c d e f : Char)
    (ha : isdigit a = true) (hb : isdigit b = true) (hc : isdigit c = true)
    (hd : isdigit d = true) (he : isdigit e = true) (hf : isdigit f = true)
    (hmin : c.toNat ≤ '5'.toNat) (hsec : e.toNat ≤ '5'.toNat) :
    Except.map formatDuration (parseDuration [a, b, ':', c, d, ':', e, f])
      = Except.ok [a, b, ':', c, d, ':', e, f] := by
  have h5 : '5'.toNat = 53 := by decide
  rw [h5] at hmin hsec
  obtain ⟨la, ea⟩ := isdigit_digitChar a ha
  obtain ⟨lb, eb⟩ := isdigit_digitChar b hb
  obtain ⟨lc, ec⟩ := isdigit_digitChar c hc
  obtain ⟨ld, ed⟩ := isdigit_digitChar d hd
  obtain ⟨le, ee⟩ := isdigit_digitChar e he
  obtain ⟨lf, ef⟩ := isdigit_digitChar f hf
  rw [parseDuration_hms a b c d e f ha hb hc hd he hf]
  obtain ⟨t1, t2, t3⟩ := tdiv_tmod_hms (10 * (a.toNat - 48) + (b.toNat - 48))
    (10 * (c.toNat - 48) + (d.toNat - 48)) (10 * (e.toNat - 48) + (f.toNat - 48))
    (by omega) (by omega)
  simp only [Except.map, formatDuration_eq_formatSpec, formatSpec, t1, t2, t3,
    pad2_two_digits _ _ la lb, pad2_two_digits _ _ lc ld, pad2_two_digits _ _ le lf,
    ← ea, ← eb, ← ec, ← ed, ← ee, ← ef]
  rfl

/-- Witness of C1: the string "01:30:45" of the example driver. -/
theorem format_parse_roundtrip_witness :
    Except.map formatDuration (parseDuration ['0', '1', ':', '3', '0', ':', '4', '5'])
      = Except.ok ['0', '1', ':', '3', '0', ':', '4', '5'] :=
  format_parse_roundtrip '0' '1' '3' '0' '4' '5' (by decide) (by decide) (by decide)
    (by decide) (by decide) (by decide) (by decide) (by decide)

theorem parseDuration_intNumerals (th tm ts : List Char)
    (hh : isIntNumeral th = true) (hm : isIntNumeral tm = true) (hs : isIntNumeral ts = true)
    (fh : fitsInt (intNumeralValue th)) (fm : fitsInt (intNumeralValue tm))
    (fs : fitsInt (intNumeralValue ts)) :
    parseDuration (th ++ ':' :: (tm ++ ':' :: ts))
      = Except.ok (3600 * intNumeralValue th + 60 * intNumeralValue tm + intNumeralValue ts) :=
  parseDuration_three th tm ts _ _ _
    (isIntNumeral_not_mem th hh ':' (by decide) (by decide) (by decide))
    (isIntNumeral_not_mem tm hm ':' (by decide) (by decide) (by decide))
    (isIntNumeral_not_mem ts hs '\n' (by decide) (by decide) (by decide))
    (isIntNumeral_ne_nil ts hs)
    (stoi_intNumeral th hh fh) (stoi_intNumeral tm hm fm) (stoi_intNumeral ts hs fs)

/-- C2, amended: for every input "H:M:S" whose three tokens are decimal integer numerals (an
optional sign and at least one digit) with values h, m and s that each fit a 32-bit `int`,
`parseDuration` returns exactly `3600 * h + 60 * m + s` seconds, with no range check on m
or s; "00:45:30" gives 2730 and "00:61:00" is accepted and gives 3660. -/
theorem parseDuration_value :
    (∀ th tm ts : List Char,
        isIntNumeral th = true → isIntNumeral tm = true → isIntNumeral ts = true →
        fitsInt (intNumeralValue th) → fitsInt (intNumeralValue tm) →
        fitsInt (intNumeralValue ts) →
        parseDuration (th ++ ':' :: (tm ++ ':' :: ts))
          = Except.ok (3600 * intNumeralValue th + 60 * intNumeralValue tm + intNumeralValue ts))
    ∧ parseDuration "00:45:30".toList = Except.ok 2730
    ∧ parseDuration "00:61:00".toList = Except.ok 3660 :=
  ⟨parseDuration_intNumerals, rfl, rfl⟩

/-- Witness of C2: the input "-1:61:+7", with a negative hour count and 61 minutes. -/
theorem parseDuration_value_witness :
    (isIntNumeral "-1".toList = true ∧ isIntNumeral "61".toList = true
      ∧ isIntNumeral "+7".toList = true)
    ∧ parseDuration "-1:61:+7".toList = Except.ok (3600 * (-1) + 60 * 61 + 7) :=
  ⟨⟨rfl, rfl, rfl⟩,
    parseDuration_value.1 "-1".toList "61".toList "+7".toList rfl rfl rfl
      ⟨by decide, by decide⟩ ⟨by decide, by decide⟩ ⟨by decide, by decide⟩⟩

/-- Counterexample to C2 as stated: in "2147483648:00:00" the three tokens are decimal
numerals, yet `std::stoi` throws `std::out_of_range` for the first one, so no duration is
returned, and not `3600 * 2147483648` seconds. -/
theorem parseDuration_value_counterexample :
    isIntNumeral "2147483648".toList = true ∧ isIntNumeral "00".toList = true
    ∧ parseDuration ("2147483648".toList ++ ':' :: ("00".toList ++ ':' :: "00".toList))
        = Except.error StoiError.out_of_range
    ∧ parseDuration ("2147483648".toList ++ ':' :: ("00".toList ++ ':' :: "00".toList))
        ≠ Except.ok (3600 * intNumeralValue "2147483648".toList
            + 60 * intNumeralValue "00".toList + intNumeralValue "00".toList) := by
  refine ⟨rfl, rfl, rfl, ?_⟩
  intro h
  have e : parseDuration ("2147483648".toList ++ ':' :: ("00".toList ++ ':' :: "00".toList))
      = Except.error StoiError.out_of_range := rfl
  rw [e] at h
  exact Except.noConfusion h

/-- C3: for every duration d, `formatDuration d` is `pad2 (d / 3600)`, a colon,
`pad2 ((d % 3600) / 60)`, a colon and `pad2 (d % 60)`, where division and remainder truncate
toward zero and `pad2` puts zeros in front of the decimal rendering up to a width of two
and never shortens a wider one. -/
theorem formatDuration_decomposes (d : Duration) :
    formatDuration d
      = pad2 (Int.tdiv d 3600) ++ [':'] ++ pad2 (Int.tdiv (Int.tmod d 3600) 60) ++ [':']
          ++ pad2 (Int.tmod d 60)
    ∧ (∀ v : Int, 2 ≤ (intDigits v).length → pad2 v = intDigits v)
    ∧ (∀ v : Int, (intDigits v).length < 2 →
        pad2 v = List.replicate (2 - (intDigits v).length) '0' ++ intDigits v) := by
  refine ⟨formatDuration_eq_formatSpec d, ?_, ?_⟩
  · intro v hv
    have : ¬ (intDigits v).length < 2 := by omega
    simp [pad2, this]
  · intro v hv
    simp [pad2, hv]

/-- Witness of C3: the hour count 100 is three characters wide and is written whole, and the
seconds count 5 is written as "05". -/
theorem formatDuration_decomposes_witness :
    pad2 100 = intDigits 100
    ∧ pad2 5 = List.replicate (2 - (intDigits 5).length) '0' ++ intDigits 5
    ∧ formatDuration 360005 = "100:00:05".toList :=
  ⟨(formatDuration_decomposes 360005).2.1 100 (by decide),
    (formatDuration_decomposes 360005).2.2 5 (by decide),
    (formatDuration_decomposes 360005).1.trans rfl⟩

/-- C10, amended: missing trailing tokens default to 0.  For every decimal numeral H whose
value fits a 32-bit `int`, `parseDuration` of "H" is `3600 * H` seconds, so a lone token
is read as hours; and for every second such numeral M, `parseDuration` of "H:M" is
`3600 * H + 60 * M` seconds.  "05" gives 5 hours and "05:10" gives 5 hours 10 minutes. -/
theorem parseDuration_missing_tokens :
    (∀ th : List Char, isIntNumeral th = true → fitsInt (intNumeralValue th) →
        parseDuration th = Except.ok (3600 * intNumeralValue th))
    ∧ (∀ th tm : List Char, isIntNumeral th = true → isIntNumeral tm = true →
        fitsInt (intNumeralValue th) → fitsInt (intNumeralValue tm) →
        parseDuration (th ++ ':' :: tm)
          = Except.ok (3600 * intNumeralValue th + 60 * intNumeralValue tm))
    ∧ parseDuration "05".toList = Except.ok (3600 * 5)
    ∧ parseDuration "05:10".toList = Except.ok (3600 * 5 + 60 * 10) := by
  refine ⟨?_, ?_, rfl, rfl⟩
  · intro th hh fh
    exact parseDuration_one th _
      (isIntNumeral_not_mem th hh ':' (by decide) (by decide) (by decide))
      (isIntNumeral_ne_nil th hh) (stoi_intNumeral th hh fh)
  · intro th tm hh hm fh fm
    exact parseDuration_two th tm _ _
      (isIntNumeral_not_mem th hh ':' (by decide) (by decide) (by decide))
      (isIntNumeral_not_mem tm hm ':' (by decide) (by decide) (by decide))
      (isIntNumeral_ne_nil tm hm) (stoi_intNumeral th hh fh) (stoi_intNumeral tm hm fm)

/-- Witness of C10: the numerals "7" and "-3". -/
theorem parseDuration_missing_tokens_witness :
    (isIntNumeral "7".toList = true ∧ isIntNumeral "-3".toList = true)
    ∧ parseDuration "7".toList = Except.ok (3600 * 7)
    ∧ parseDuration "7:-3".toList = Except.ok (3600 * 7 + 60 * (-3)) :=
  ⟨⟨rfl, rfl⟩,
    parseDuration_missing_tokens.1 "7".toList rfl ⟨by decide, by decide⟩,
    parseDuration_missing_tokens.2.1 "7".toList "-3".toList rfl rfl
      ⟨by decide, by decide⟩ ⟨by decide, by decide⟩⟩

/-- Counterexample to C10 as stated: "4294967296" is a decimal numeral, yet `std::stoi`
throws `std::out_of_range` for it, so `parseDuration` returns no duration, and not
`3600 * 4294967296` seconds. -/
theorem parseDuration_missing_tokens_counterexample :
    isNumeral "4294967296".toList = true
    ∧ parseDuration "4294967296".toList = Except.error StoiError.out_of_range
    ∧ parseDuration "4294967296".toList
        ≠ Except.ok (3600 * intNumeralValue "4294967296".toList) := by
  refine ⟨rfl, rfl, ?_⟩
  intro h
  have e : parseDuration "4294967296".toList = Except.error StoiError.out_of_range := rfl
  rw [e] at h
  exact Except.noConfusion h

/-! ## The extension filter -/

theorem find_ne_length_iff (v : List (List Char)) (x : List Char) :
    find v x ≠ v.length ↔ x ∈ v := by
  induction v with
  | nil => simp [find]
  | cons y ys ih =>
    by_cases h : y = x
    · simp [find, h]
    · have h2 : ¬ x = y := fun e => h e.symm
      simp [find, h, h2, ih]

theorem isSupported_iff (e : List Char) : isSupported e = true ↔ e ∈ supportedExtensions := by
  simp only [isSupported, bne_iff_ne]
  exact find_ne_length_iff supportedExtensions e

theorem supported_no_upper :
    ∀ e ∈ supportedExtensions, ∀ c ∈ e, isUpperAscii c = false := by
  decide

/-- C4: `isSupported e` is true exactly when e is an element of the built-in list
`supportedExtensions`, that is, equal to one of its strings; it is true for every listed
extension and false for ".txt". -/
theorem isSupported_exact_membership :
    (∀ e : List Char, isSupported e = true ↔ e ∈ supportedExtensions)
    ∧ (∀ x ∈ supportedExtensions, isSupported x = true)
    ∧ isSupported ".txt".toList = false :=
  ⟨isSupported_iff, fun x hx => (isSupported_iff x).2 hx, rfl⟩

/-- Witness of C4: ".webp", the last listed extension, is supported. -/
theorem isSupported_exact_membership_witness : isSupported ".webp".toList = true :=
  isSupported_exact_membership.2.1 ".webp".toList (by decide)

/-- C5: `isSupported` does not normalise case: ".MP3" is rejected while ".mp3" is
accepted, and every string that contains an uppercase ASCII letter is rejected. -/
theorem isSupported_case_sensitive :
    isSupported ".MP3".toList = false
    ∧ isSupported ".mp3".toList = true
    ∧ (∀ s : List Char, (∃ c ∈ s, isUpperAscii c = true) → isSupported s = false) := by
  refine ⟨rfl, rfl, ?_⟩
  intro s h
  obtain ⟨c, hc, hu⟩ := h
  cases hs : isSupported s with
  | false => rfl
  | true =>
    have := supported_no_upper s ((isSupported_iff s).1 hs) c hc
    rw [hu] at this
    exact Bool.noConfusion this

/-- Witness of C5: ".Jpg" contains the uppercase letter J. -/
theorem isSupported_case_sensitive_witness :
    (∃ c ∈ ".Jpg".toList, isUpperAscii c = true) ∧ isSupported ".Jpg".toList = false :=
  ⟨⟨'J', by decide, by decide⟩,
    isSupported_case_sensitive.2.2 ".Jpg".toList ⟨'J', by decide, by decide⟩⟩

/-! ## The copier -/

theorem copy_file_copies (env : Env) (w : World) (s d : List Char) :
    (copy_file env w s d).2.copies = w.copies ++ [(s, d)] := by
  unfold copy_file
  cases w.files s with
  | none => rfl
  | some content =>
    simp only
    split_ifs
    · rfl
    · rfl
    · rfl
    · cases env.faults w.copies.length with
      | none => rfl
      | some e => cases env.written w.copies.length <;> rfl

theorem copy_file_console (env : Env) (w : World) (s d : List Char) :
    (copy_file env w s d).2.cout = w.cout ∧ (copy_file env w s d).2.cerr = w.cerr := by
  unfold copy_file
  cases w.files s with
  | none => exact ⟨rfl, rfl⟩
  | some content =>
    simp only
    split_ifs
    · exact ⟨rfl, rfl⟩
    · exact ⟨rfl, rfl⟩
    · exact ⟨rfl, rfl⟩
    · cases env.faults w.copies.length with
      | none => exact ⟨rfl, rfl⟩
      | some e => cases env.written w.copies.length <;> exact ⟨rfl, rfl⟩

theorem copy_file_files_other (env : Env) (w : World) (s d p : List Char) (hp : p ≠ d) :
    (copy_file env w s d).2.files p = w.files p := by
  unfold copy_file
  cases w.files s with
  | none => rfl
  | some content =>
    simp only
    split_ifs
    · rfl
    · rfl
    · rfl
    · cases env.faults w.copies.length with
      | none => simp [hp]
      | some e => cases env.written w.copies.length <;> simp [hp]

theorem copy_file_dirs (env : Env) (w : World) (s d : List Char) :
    (copy_file env w s d).2.dirs = w.dirs := by
  unfold copy_file
  cases w.files s with
  | none => rfl
  | some content =>
    simp only
    split_ifs
    · rfl
    · rfl
    · rfl
    · cases env.faults w.copies.length with
      | none => rfl
      | some e => cases env.written w.copies.length <;> rfl

theorem saveFile_copies (env : Env) (w : World) (s d : List Char) :
    (saveFile env w s d).2.copies = w.copies ++ [(s, d)] := by
  have h := copy_file_copies env w s d
  unfold saveFile
  rcases hc : copy_file env w s d with ⟨r, w1⟩
  rw [hc] at h
  cases r with
  | ok u => simpa using h
  | error e => simpa using h

theorem saveFile_files_other (env : Env) (w : World) (s d p : List Char) (hp : p ≠ d) :
    (saveFile env w s d).2.files p = w.files p := by
  have h := copy_file_files_other env w s d p hp
  unfold saveFile
  rcases hc : copy_file env w s d with ⟨r, w1⟩
  rw [hc] at h
  cases r with
  | ok u => simpa using h
  | error e => simpa using h

theorem saveEntry_selected (env : Env) (dst : List Char) (w : World) (e : DirEntry)
    (h : selected e = true) :
    saveEntry env dst w e = (saveFile env w e.path (flattened dst e.path)).2 := by
  simp only [selected, Bool.and_eq_true] at h
  simp [saveEntry, h.1, h.2, flattened]

theorem saveEntry_not_selected (env : Env) (dst : List Char) (w : World) (e : DirEntry)
    (h : selected e = false) : saveEntry env dst w e = w := by
  simp only [selected, Bool.and_eq_false_iff] at h
  rcases h with h | h
  · simp [saveEntry, h]
  · simp [saveEntry, h]

theorem saveEntry_copies (env : Env) (dst : List Char) (w : World) (e : DirEntry) :
    (saveEntry env dst w e).copies
      = w.copies ++ (if selected e = true then [(e.path, flattened dst e.path)] else []) := by
  cases h : selected e with
  | true => simp [saveEntry_selected env dst w e h, saveFile_copies]
  | false => simp [saveEntry_not_selected env dst w e h]

theorem foldl_saveEntry_copies (env : Env) (dst : List Char) (l : List DirEntry) (w : World) :
    (l.foldl (saveEntry env dst) w).copies
      = w.copies ++ (l.filter selected).map (fun e => (e.path, flattened dst e.path)) := by
  induction l generalizing w with
  | nil => simp
  | cons e es ih =>
    rw [List.foldl_cons, ih, saveEntry_copies]
    cases h : selected e with
    | true => simp [List.filter_cons, h]
    | false => simp [List.filter_cons, h]

theorem foldl_saveEntry_files (env : Env) (dst p : List Char) (l : List DirEntry) (w : World)
    (hp : ∀ e ∈ l, selected e = true → flattened dst e.path ≠ p) :
    (l.foldl (saveEntry env dst) w).files p = w.files p := by
  induction l generalizing w with
  | nil => rfl
  | cons e es ih =>
    rw [List.foldl_cons, ih _ (fun x hx => hp x (List.mem_cons_of_mem _ hx))]
    cases h : selected e with
    | true =>
      rw [saveEntry_selected env dst w e h]
      exact saveFile_files_other env w _ _ p (fun q => hp e (List.mem_cons_self _ _) h q.symm)
    | false => rw [saveEntry_not_selected env dst w e h]

theorem flattened_eq_iff (dst p n : List Char) :
    flattened dst p = dst ++ '/' :: n ↔ filename p = n := by
  simp [flattened, String.toList]

theorem extension_congr (p q : List Char) (h : filename p = filename q) :
    extension p = extension q := by
  simp only [extension, h]

theorem selected_congr (e : DirEntry) (q : List Char) (h : filename e.path = filename q) :
    selected e = (e.is_regular_file && isSupported ((extension q).map tolower)) := by
  simp only [selected, extension_congr e.path q h]

theorem saveAllSupportedFiles_copies (env : Env) (w : World) (sourceDir destinationDir : List Char) :
    (saveAllSupportedFiles env w sourceDir destinationDir).copies
      = w.copies ++ ((env.listing sourceDir).filter selected).map
          (fun e => (e.path, flattened destinationDir e.path)) :=
  foldl_saveEntry_copies env destinationDir (env.listing sourceDir) w

theorem notes_not_selected (e : DirEntry) (h : filename e.path = "notes.txt".toList) :
    selected e = false := by
  have hs : isSupported ((extension "notes.txt".toList).map tolower) = false := rfl
  rw [selected_congr e "notes.txt".toList (h.trans rfl), hs, Bool.and_false]

theorem song_selected (e : DirEntry) (h : filename e.path = "SONG.MP3".toList)
    (hr : e.is_regular_file = true) : selected e = true := by
  have hs : isSupported ((extension "SONG.MP3".toList).map tolower) = true := rfl
  rw [selected_congr e "SONG.MP3".toList (h.trans rfl), hs, hr, Bool.and_true]

/-- C6: `saveAllSupportedFiles` calls the copy for exactly the entries of the listing that are
regular files and whose extension, put in lower case, `isSupported` accepts, in the order of
the listing, each with the destination directory, a slash and the base name as
destination.  So an entry named notes.txt is never copied and the run leaves the path
notes.txt of the destination as it was, while a regular file named SONG.MP3 is copied. -/
theorem copier_selection (env : Env) (w : World) (sourceDir destinationDir : List Char) :
    (saveAllSupportedFiles env w sourceDir destinationDir).copies
      = w.copies ++ ((env.listing sourceDir).filter
          (fun e => e.is_regular_file && isSupported ((extension e.path).map tolower))).map
          (fun e => (e.path, destinationDir ++ "/".toList ++ filename e.path))
    ∧ (∀ e : DirEntry, filename e.path = "notes.txt".toList →
        (e.is_regular_file && isSupported ((extension e.path).map tolower)) = false)
    ∧ (saveAllSupportedFiles env w sourceDir destinationDir).files
          (destinationDir ++ "/notes.txt".toList)
        = w.files (destinationDir ++ "/notes.txt".toList)
    ∧ (∀ e ∈ env.listing sourceDir, filename e.path = "SONG.MP3".toList →
        e.is_regular_file = true →
        (e.path, destinationDir ++ "/SONG.MP3".toList)
          ∈ (saveAllSupportedFiles env w sourceDir destinationDir).copies) := by
  refine ⟨?_, ?_, ?_, ?_⟩
  · rw [saveAllSupportedFiles_copies]
    rfl
  · intro e he
    exact notes_not_selected e he
  · apply foldl_saveEntry_files
    intro e _ hsel hflat
    have hn : filename e.path = "notes.txt".toList :=
      (flattened_eq_iff destinationDir e.path "notes.txt".toList).1 hflat
    rw [notes_not_selected e hn] at hsel
    exact Bool.noConfusion hsel
  · intro e he hn hr
    rw [saveAllSupportedFiles_copies]
    apply List.mem_append_right
    rw [List.mem_map]
    refine ⟨e, List.mem_filter.2 ⟨he, song_selected e hn hr⟩, ?_⟩
    rw [(flattened_eq_iff destinationDir e.path "SONG.MP3".toList).2 hn]
    rfl

/-- Witness of C6: a tree with a folder, notes.txt and SONG.MP3, and an existing folder out;
SONG.MP3 is copied and its content arrives at out/SONG.MP3, and no out/notes.txt appears. -/
theorem copier_selection_witness :
    ("in/music/SONG.MP3".toList, "out".toList ++ "/SONG.MP3".toList)
      ∈ (saveAllSupportedFiles
          (quietEnv [⟨"in/music".toList, false⟩, ⟨"in/notes.txt".toList, true⟩,
            ⟨"in/music/SONG.MP3".toList, true⟩])
          (worldWith ["in".toList, "in/music".toList, "out".toList]
            [("in/notes.txt".toList, "memo".toList),
              ("in/music/SONG.MP3".toList, "la la".toList)])
          "in".toList "out".toList).copies
    ∧ (saveAllSupportedFiles
        (quietEnv [⟨"in/music".toList, false⟩, ⟨"in/notes.txt".toList, true⟩,
          ⟨"in/music/SONG.MP3".toList, true⟩])
        (worldWith ["in".toList, "in/music".toList, "out".toList]
          [("in/notes.txt".toList, "memo".toList),
            ("in/music/SONG.MP3".toList, "la la".toList)])
        "in".toList "out".toList).files "out/SONG.MP3".toList = some "la la".toList
    ∧ (saveAllSupportedFiles
        (quietEnv [⟨"in/music".toList, false⟩, ⟨"in/notes.txt".toList, true⟩,
          ⟨"in/music/SONG.MP3".toList, true⟩])
        (worldWith ["in".toList, "in/music".toList, "out".toList]
          [("in/notes.txt".toList, "memo".toList),
            ("in/music/SONG.MP3".toList, "la la".toList)])
        "in".toList "out".toList).files "out/notes.txt".toList = none :=
  ⟨(copier_selection _ _ "in".toList "out".toList).2.2.2
      ⟨"in/music/SONG.MP3".toList, true⟩ (by decide) rfl rfl,
    rfl, rfl⟩

theorem tdiv_eq_cases (a b : Int) (hb : 0 ≤ b) :
    Int.tdiv a b = if 0 ≤ a then a / b else -((-a) / b) := by
  split
  · next h => exact Int.tdiv_eq_ediv h hb
  · next h =>
    have h1 : (0 : Int) ≤ -a := by omega
    have h2 := Int.neg_tdiv (-a) b
    rw [neg_neg] at h2
    rw [h2, Int.tdiv_eq_ediv h1 hb]

theorem tmod_eq_cases (a b : Int) (hb : 0 ≤ b) :
    Int.tmod a b = if 0 ≤ a then a % b else -((-a) % b) := by
  rw [Int.tmod_def, tdiv_eq_cases a b hb]
  split
  · rw [Int.emod_def]
  · rw [Int.emod_def]; ring

theorem digitChar_isdigit (n : Nat) (h : n < 10) : isdigit (digitChar n) = true := by
  interval_cases n <;> decide

theorem digitChar_value (n : Nat) (h : n < 10) : (digitChar n).toNat - '0'.toNat = n := by
  interval_cases n <;> decide

theorem digitsValue_snoc (ds : List Char) (c : Char) :
    digitsValue (ds ++ [c]) = 10 * digitsValue ds + (c.toNat - '0'.toNat) := by
  simp [digitsValue, List.foldl_append]

theorem isNumeral_snoc (ds : List Char) (c : Char) (h : isNumeral ds = true)
    (hc : isdigit c = true) : isNumeral (ds ++ [c]) = true := by
  simp only [isNumeral, Bool.and_eq_true, Bool.not_eq_true', List.isEmpty_eq_false,
    List.all_eq_true] at h ⊢
  refine ⟨by simp, ?_⟩
  intro x hx
  rcases List.mem_append.1 hx with hx | hx
  · exact h.2 x hx
  · rw [List.mem_singleton.1 hx]; exact hc

theorem natDigitsAux_spec (fuel : Nat) :
    ∀ (n : Nat) (acc : List Char), n < fuel →
      ∃ ds, natDigitsAux fuel n acc = ds ++ acc ∧ isNumeral ds = true ∧ digitsValue ds = n := by
  induction fuel with
  | zero => intro n acc h; omega
  | succ fuel ih =>
    intro n acc h
    by_cases hn : n < 10
    · refine ⟨[digitChar n], ?_, ?_, ?_⟩
      · simp [natDigitsAux, hn]
      · simp [isNumeral, digitChar_isdigit n hn]
      · have := digitChar_value n hn
        simpa [digitsValue] using this
    · have hlt : n / 10 < fuel := by omega
      obtain ⟨ds, e, hnum, hval⟩ := ih (n / 10) (digitChar (n % 10) :: acc) hlt
      have hm : n % 10 < 10 := by omega
      refine ⟨ds ++ [digitChar (n % 10)], ?_, ?_, ?_⟩
      · simp [natDigitsAux, hn, e]
      · exact isNumeral_snoc ds _ hnum (digitChar_isdigit _ hm)
      · rw [digitsValue_snoc, hval, digitChar_value _ hm]; omega

theorem natDigits_spec (n : Nat) :
    isNumeral (natDigits n) = true ∧ digitsValue (natDigits n) = n := by
  obtain ⟨ds, e, hnum, hval⟩ := natDigitsAux_spec (n + 1) n [] (by omega)
  rw [List.append_nil] at e
  rw [natDigits, e]
  exact ⟨hnum, hval⟩

theorem isNumeral_length (ds : List Char) (h : isNumeral ds = true) : 1 ≤ ds.length := by
  cases ds with
  | nil => simp [isNumeral] at h
  | cons c cs => simp

theorem isNumeral_zeros (k : Nat) (ds : List Char) (h : isNumeral ds = true) :
    isNumeral (List.replicate k '0' ++ ds) = true
      ∧ digitsValue (List.replicate k '0' ++ ds) = digitsValue ds := by
  induction k with
  | zero => simpa using h
  | succ k ih =>
    have hz : isdigit '0' = true := by decide
    constructor
    · have := ih.1
      simp only [isNumeral, Bool.and_eq_true, Bool.not_eq_true', List.isEmpty_eq_false,
        List.all_eq_true] at this ⊢
      refine ⟨by simp [List.replicate_succ], ?_⟩
      intro x hx
      rw [List.replicate_succ, List.cons_append, List.mem_cons] at hx
      rcases hx with hx | hx
      · rw [hx]; exact hz
      · exact this.2 x hx
    · have := ih.2
      simp only [digitsValue] at this ⊢
      rw [List.replicate_succ, List.cons_append, List.foldl_cons]
      simpa using this

theorem pad2_nonneg (v : Int) (h : 0 ≤ v) :
    isNumeral (pad2 v) = true ∧ (digitsValue (pad2 v) : Int) = v := by
  have hv : ¬ v < 0 := by omega
  have hspec := natDigits_spec v.natAbs
  rw [pad2_eq]
  simp only [intDigits, hv, if_false]
  obtain ⟨h1, h2⟩ := isNumeral_zeros (2 - (natDigits v.natAbs).length) _ hspec.1
  refine ⟨h1, ?_⟩
  rw [h2, hspec.2]
  omega

theorem pad2_neg (v : Int) (h : v < 0) : pad2 v = '-' :: natDigits v.natAbs := by
  have hlen := isNumeral_length _ (natDigits_spec v.natAbs).1
  rw [pad2_eq]
  simp only [intDigits, h, if_true, List.length_cons]
  have : 2 - ((natDigits v.natAbs).length + 1) = 0 := by omega
  rw [this]
  rfl

theorem stoi_pad2 (v : Int) (h : fitsInt v) : stoi (pad2 v) = Except.ok v := by
  by_cases hv : 0 ≤ v
  · obtain ⟨h1, h2⟩ := pad2_nonneg v hv
    have := stoi_unsigned (pad2 v) h1 (by rw [h2]; exact h.2)
    rw [h2] at this
    exact this
  · have hneg : v < 0 := by omega
    have hspec := natDigits_spec v.natAbs
    have hval : -((digitsValue (natDigits v.natAbs) : Nat) : Int) = v := by
      rw [hspec.2]; omega
    rw [pad2_neg v hneg]
    have := stoi_minus (natDigits v.natAbs) hspec.1 (by rw [hval]; exact h.1)
    rw [hval] at this
    exact this

theorem pad2_not_mem (v : Int) (c : Char) (hc : isdigit c = false) (hm : c ≠ '-') :
    c ∉ pad2 v := by
  by_cases hv : 0 ≤ v
  · exact isNumeral_not_mem _ (pad2_nonneg v hv).1 c hc
  · rw [pad2_neg v (by omega)]
    intro hmem
    rcases List.mem_cons.1 hmem with e | e
    · exact hm e
    · exact isNumeral_not_mem _ (natDigits_spec v.natAbs).1 c hc e

theorem pad2_ne_nil (v : Int) : pad2 v ≠ [] := by
  by_cases hv : 0 ≤ v
  · intro e
    have := (pad2_nonneg v hv).1
    rw [e] at this
    simp [isNumeral] at this
  · rw [pad2_neg v (by omega)]
    simp

theorem hms_exact (d : Int) :
    3600 * Int.tdiv d 3600 + 60 * Int.tdiv (Int.tmod d 3600) 60 + Int.tmod d 60 = d
    ∧ -60 < Int.tdiv (Int.tmod d 3600) 60 ∧ Int.tdiv (Int.tmod d 3600) 60 < 60
    ∧ -60 < Int.tmod d 60 ∧ Int.tmod d 60 < 60
    ∧ (d < 0 → Int.tdiv d 3600 ≤ 0 ∧ Int.tdiv (Int.tmod d 3600) 60 ≤ 0 ∧ Int.tmod d 60 ≤ 0)
    ∧ (0 ≤ d → 0 ≤ Int.tdiv d 3600 ∧ 0 ≤ Int.tdiv (Int.tmod d 3600) 60 ∧ 0 ≤ Int.tmod d 60) := by
  rw [tmod_eq_cases d 3600 (by norm_num), tmod_eq_cases d 60 (by norm_num),
    tdiv_eq_cases d 3600 (by norm_num), tdiv_eq_cases _ 60 (by norm_num)]
  by_cases h : 0 ≤ d
  · simp only [h, if_true]
    have : (0 : Int) ≤ d % 3600 := Int.emod_nonneg _ (by norm_num)
    simp only [this, if_true]
    refine ⟨by omega, by omega, by omega, by omega, by omega, fun hd => by omega,
      fun hd => ⟨by omega, by omega, by omega⟩⟩
  · simp only [h, if_false]
    by_cases h2 : (0 : Int) ≤ -(-d % 3600)
    · simp only [h2, if_true]
      refine ⟨by omega, by omega, by omega, by omega, by omega,
        fun hd => ⟨by omega, by omega, by omega⟩, fun hd => False.elim hd⟩
    · simp only [h2, if_false]
      refine ⟨by omega, by omega, by omega, by omega, by omega,
        fun hd => ⟨by omega, by omega, by omega⟩, fun hd => False.elim hd⟩

/-- C16: for every duration d, negative ones included, whose hour count `d / 3600` (truncated)
fits a 32-bit `int`, `parseDuration` of `formatDuration d` returns d. -/
theorem parse_format_roundtrip (d : Duration) (h : fitsInt (Int.tdiv d 3600)) :
    parseDuration (formatDuration d) = Except.ok d := by
  obtain ⟨hsum, m1, m2, s1, s2, _, _⟩ := hms_exact d
  have fm : fitsInt (Int.tdiv (Int.tmod d 3600) 60) := by
    simp only [fitsInt, INT_MIN, INT_MAX]; omega
  have fs : fitsInt (Int.tmod d 60) := by
    simp only [fitsInt, INT_MIN, INT_MAX]; omega
  have shape : formatDuration d
      = pad2 (Int.tdiv d 3600)
          ++ ':' :: (pad2 (Int.tdiv (Int.tmod d 3600) 60) ++ ':' :: pad2 (Int.tmod d 60)) := by
    rw [formatDuration_eq_formatSpec]
    simp [formatSpec, String.toList]
  rw [shape]
  have := parseDuration_three _ _ _ _ _ _
    (pad2_not_mem (Int.tdiv d 3600) ':' (by decide) (by decide))
    (pad2_not_mem (Int.tdiv (Int.tmod d 3600) 60) ':' (by decide) (by decide))
    (pad2_not_mem (Int.tmod d 60) '\n' (by decide) (by decide))
    (pad2_ne_nil _) (stoi_pad2 _ h) (stoi_pad2 _ fm) (stoi_pad2 _ fs)
  rw [this, hsum]

/-- Witness of C16: the negative duration of -3661 seconds, written "-1:-1:-1". -/
theorem parse_format_roundtrip_witness :
    fitsInt (Int.tdiv (-3661) 3600)
    ∧ formatDuration (-3661) = "-1:-1:-1".toList
    ∧ parseDuration (formatDuration (-3661)) = Except.ok (-3661) :=
  ⟨⟨by decide, by decide⟩, rfl, parse_format_roundtrip (-3661) ⟨by decide, by decide⟩⟩

theorem signedField_eq_pad2 (v : Int) (h : v ≤ 0) : signedField v = pad2 v := by
  by_cases h0 : v = 0
  · subst h0; rfl
  · rw [pad2_neg v (by omega)]
    simp [signedField, h0]

theorem signedField_minus (v : Int) (h : v ≠ 0) : '-' ∈ signedField v := by
  simp [signedField, h]

/-- C17: for every d < 0 the three fields of `formatDuration d` (hours, minutes and seconds
by truncating division) are each at most 0, and each field that is not 0 is written with a
minus sign of its own, a field that is 0 as "00"; -5 gives "00:00:-5", -3600 gives "-1:00:00"
and -3661 gives "-1:-1:-1".  So whenever the output is a string of three two-digit fields,
d is at least 0. -/
theorem formatDuration_negative :
    (∀ d : Duration, d < 0 →
        Int.tdiv d 3600 ≤ 0 ∧ Int.tdiv (Int.tmod d 3600) 60 ≤ 0 ∧ Int.tmod d 60 ≤ 0
        ∧ formatDuration d
            = signedField (Int.tdiv d 3600) ++ [':']
                ++ signedField (Int.tdiv (Int.tmod d 3600) 60) ++ [':']
                ++ signedField (Int.tmod d 60))
    ∧ formatDuration (-5) = "00:00:-5".toList
    ∧ formatDuration (-3600) = "-1:00:00".toList
    ∧ formatDuration (-3661) = "-1:-1:-1".toList
    ∧ (∀ (d : Duration) (a b c e f g : Char),
        isdigit a = true → isdigit b = true → isdigit c = true → isdigit e = true →
        isdigit f = true → isdigit g = true →
        formatDuration d = [a, b, ':', c, e, ':', f, g] → 0 ≤ d) := by
  have neg : ∀ d : Duration, d < 0 →
      Int.tdiv d 3600 ≤ 0 ∧ Int.tdiv (Int.tmod d 3600) 60 ≤ 0 ∧ Int.tmod d 60 ≤ 0
      ∧ formatDuration d
          = signedField (Int.tdiv d 3600) ++ [':']
              ++ signedField (Int.tdiv (Int.tmod d 3600) 60) ++ [':']
              ++ signedField (Int.tmod d 60) := by
    intro d hd
    obtain ⟨_, _, _, _, _, hneg, _⟩ := hms_exact d
    obtain ⟨h1, h2, h3⟩ := hneg hd
    refine ⟨h1, h2, h3, ?_⟩
    rw [signedField_eq_pad2 _ h1, signedField_eq_pad2 _ h2, signedField_eq_pad2 _ h3]
    exact formatDuration_eq_formatSpec d
  refine ⟨neg, rfl, rfl, rfl, ?_⟩
  intro d a b c e f g ha hb hc he hf hg hfmt
  by_contra hd
  have hd' : d < 0 := not_le.mp hd
  obtain ⟨hsum, _, _, _, _, _, _⟩ := hms_exact d
  obtain ⟨h1, h2, h3, hshape⟩ := neg d hd'
  have hminus : '-' ∈ formatDuration d := by
    rw [hshape]
    by_cases z1 : Int.tdiv d 3600 = 0
    · by_cases z2 : Int.tdiv (Int.tmod d 3600) 60 = 0
      · have z3 : Int.tmod d 60 ≠ 0 := by
          intro z3
          rw [z1, z2, z3] at hsum
          have : d = 0 := by rw [← hsum]; norm_num
          rw [this] at hd'
          exact absurd hd' (by decide)
        simp [signedField_minus _ z3]
      · simp [signedField_minus _ z2]
    · simp [signedField_minus _ z1]
  rw [hfmt] at hminus
  have nd : isdigit '-' = false := by decide
  simp only [List.mem_cons, List.mem_singleton, List.not_mem_nil, or_false] at hminus
  rcases hminus with e1 | e1 | e1 | e1 | e1 | e1 | e1 | e1
  · rw [← e1, nd] at ha; exact Bool.noConfusion ha
  · rw [← e1, nd] at hb; exact Bool.noConfusion hb
  · exact absurd e1 (by decide)
  · rw [← e1, nd] at hc; exact Bool.noConfusion hc
  · rw [← e1, nd] at he; exact Bool.noConfusion he
  · exact absurd e1 (by decide)
  · rw [← e1, nd] at hf; exact Bool.noConfusion hf
  · rw [← e1, nd] at hg; exact Bool.noConfusion hg

/-- Witness of C17: -60 seconds has the fields 0, -1 and 0 and is written "00:-1:00". -/
theorem formatDuration_negative_witness :
    (-60 : Int) < 0
    ∧ formatDuration (-60) = "00:-1:00".toList
    ∧ Int.tdiv (Int.tmod (-60) 3600) 60 ≤ 0 :=
  ⟨by decide, (formatDuration_negative.1 (-60) (by decide)).2.2.2.trans rfl,
    (formatDuration_negative.1 (-60) (by decide)).2.1⟩

/-! ## Tokens that are missing, empty or not numeric -/

theorem getline_none_iff (buf : List Char) (delim : Char) :
    (getline { buf := buf, good := true } delim).1 = none ↔ buf = [] := by
  cases buf with
  | nil => simp [getline, splitDelim]
  | cons c cs =>
    by_cases h : c = delim
    · simp [getline, splitDelim, h]
    · simp only [getline, splitDelim, h, if_false, if_true]
      rcases (splitDelim delim cs).2 with _ | rest <;> simp

theorem parseDuration_trailing_one (th : List Char) (hth : ':' ∉ th) (hne : th ≠ []) :
    parseDuration (th ++ [':']) = parseDuration th := by
  simp only [parseDuration, istringstream, getline_found ':' th [] hth,
    getline_last ':' th hth hne, getline_end, getline_not_good]

theorem parseDuration_trailing_two (th tm : List Char) (hth : ':' ∉ th) (htm : ':' ∉ tm)
    (hne : tm ≠ []) :
    parseDuration (th ++ ':' :: (tm ++ [':'])) = parseDuration (th ++ ':' :: tm) := by
  simp only [parseDuration, istringstream, getline_found ':' th _ hth,
    getline_found ':' tm [] htm, getline_last ':' tm htm hne, getline_end, getline_not_good]

theorem dropWhile_isspace_snoc (t : List Char) (c : Char) (hc : isspace c = false) :
    (t ++ [c]).dropWhile isspace = t.dropWhile isspace ++ [c] := by
  induction t with
  | nil => simp [List.dropWhile, hc]
  | cons x xs ih =>
    cases hx : isspace x with
    | true => simp [List.dropWhile, hx, ih]
    | false => simp [List.dropWhile, hx]

theorem stoiSign_snoc (u : List Char) (c : Char) (hm : c ≠ '-') (hp : c ≠ '+') :
    stoiSign (u ++ [c]) = ((stoiSign u).1, (stoiSign u).2 ++ [c]) := by
  cases u with
  | nil => simp [stoiSign, hm, hp]
  | cons x xs =>
    by_cases h1 : x = '-'
    · subst h1; simp [stoiSign]
    · by_cases h2 : x = '+'
      · subst h2; simp [stoiSign]
      · simp [stoiSign, h1, h2]

theorem takeWhile_isdigit_snoc (r : List Char) (c : Char) (hc : isdigit c = false) :
    (r ++ [c]).takeWhile isdigit = r.takeWhile isdigit := by
  induction r with
  | nil => simp [List.takeWhile, hc]
  | cons x xs ih =>
    cases hx : isdigit x with
    | true => simp [List.takeWhile, hx, ih]
    | false => simp [List.takeWhile, hx]

theorem stoi_snoc (t : List Char) (c : Char) (hs : isspace c = false) (hd : isdigit c = false)
    (hm : c ≠ '-') (hp : c ≠ '+') : stoi (t ++ [c]) = stoi t := by
  simp only [stoi, dropWhile_isspace_snoc t c hs, stoiSign_snoc _ c hm hp,
    takeWhile_isdigit_snoc _ c hd]

theorem parseDuration_trailing_three (th tm ts : List Char) (hth : ':' ∉ th) (htm : ':' ∉ tm)
    (hts : '\n' ∉ ts) (hne : ts ≠ []) :
    parseDuration (th ++ ':' :: (tm ++ ':' :: (ts ++ [':'])))
      = parseDuration (th ++ ':' :: (tm ++ ':' :: ts)) := by
  have hts2 : '\n' ∉ ts ++ [':'] := by
    intro h
    rcases List.mem_append.1 h with h | h
    · exact hts h
    · exact absurd (List.mem_singleton.1 h) (by decide)
  have hne2 : ts ++ [':'] ≠ [] := by simp
  simp only [parseDuration, istringstream, getline_found ':' th _ hth,
    getline_found ':' tm _ htm, getline_last '\n' ts hts hne,
    getline_last '\n' (ts ++ [':']) hts2 hne2,
    stoi_snoc ts ':' (by decide) (by decide) (by decide) (by decide)]

/-- C18: `parseDuration` of the empty string returns 0 seconds, and "05:" gives the same
18000 seconds as "05".  In general a colon at the very end of the input, after a first,
second or third token that is not empty, changes nothing.  The reason: `getline` reports
failure, so that the token is not converted, exactly when not a single character is left to
extract. -/
theorem parseDuration_empty_and_trailing :
    parseDuration [] = Except.ok 0
    ∧ parseDuration "05:".toList = Except.ok 18000
    ∧ parseDuration "05".toList = Except.ok 18000
    ∧ (∀ th : List Char, ':' ∉ th → th ≠ [] →
        parseDuration (th ++ [':']) = parseDuration th)
    ∧ (∀ th tm : List Char, ':' ∉ th → ':' ∉ tm → tm ≠ [] →
        parseDuration (th ++ ':' :: (tm ++ [':'])) = parseDuration (th ++ ':' :: tm))
    ∧ (∀ th tm ts : List Char, ':' ∉ th → ':' ∉ tm → '\n' ∉ ts → ts ≠ [] →
        parseDuration (th ++ ':' :: (tm ++ ':' :: (ts ++ [':'])))
          = parseDuration (th ++ ':' :: (tm ++ ':' :: ts)))
    ∧ (∀ (buf : List Char) (delim : Char),
        (getline { buf := buf, good := true } delim).1 = none ↔ buf = []) :=
  ⟨rfl, rfl, rfl, parseDuration_trailing_one, parseDuration_trailing_two,
    parseDuration_trailing_three, getline_none_iff⟩

/-- Witness of C18: "12:34:" is read as "12:34", and "7:8:9:" as "7:8:9". -/
theorem parseDuration_empty_and_trailing_witness :
    parseDuration "12:34:".toList = parseDuration "12:34".toList
    ∧ parseDuration "12:34".toList = Except.ok (3600 * 12 + 60 * 34)
    ∧ parseDuration "7:8:9:".toList = parseDuration "7:8:9".toList :=
  ⟨parseDuration_empty_and_trailing.2.2.2.2.1 "12".toList "34".toList
      (by decide) (by decide) (by decide),
    rfl,
    parseDuration_empty_and_trailing.2.2.2.2.2.1 "7".toList "8".toList "9".toList
      (by decide) (by decide) (by decide) (by decide)⟩

theorem startsWithNumeral_eq (t : List Char) :
    startsWithNumeral t = firstIsDigit (stoiSign (t.dropWhile isspace)).2 := by
  unfold startsWithNumeral
  generalize t.dropWhile isspace = u
  cases u with
  | nil => rfl
  | cons x xs =>
    by_cases h1 : x = '-'
    · subst h1; rfl
    · by_cases h2 : x = '+'
      · subst h2; rfl
      · simp [stoiSign, h1, h2]

theorem takeWhile_isdigit_isEmpty (r : List Char) :
    (r.takeWhile isdigit).isEmpty = !firstIsDigit r := by
  cases r with
  | nil => rfl
  | cons x xs =>
    cases hx : isdigit x <;> simp [List.takeWhile, firstIsDigit, hx]

theorem stoi_invalid_iff (t : List Char) :
    stoi t = Except.error StoiError.invalid_argument ↔ startsWithNumeral t = false := by
  rw [startsWithNumeral_eq]
  have he := takeWhile_isdigit_isEmpty (stoiSign (t.dropWhile isspace)).2
  simp only [stoi]
  cases hf : firstIsDigit (stoiSign (t.dropWhile isspace)).2 with
  | false =>
    rw [hf] at he
    simp [he]
  | true =>
    rw [hf] at he
    simp only [he, Bool.not_true, Bool.false_eq_true, if_false]
    split_ifs <;> simp

theorem parseDuration_token_fails (s : List Char)
    (h : ∃ t ∈ tokensRead s, startsWithNumeral t = false) :
    ∃ e, parseDuration s = Except.error e := by
  obtain ⟨t, ht, hbad⟩ := h
  have hstoi := (stoi_invalid_iff t).2 hbad
  simp only [tokensRead] at ht
  simp only [parseDuration]
  rcases h1 : getline (istringstream s) ':' with ⟨_ | t1, is1⟩
  · rw [h1] at ht
    simp at ht
  · rw [h1] at ht
    simp only at ht ⊢
    cases hs1 : stoi t1 with
    | error e => exact ⟨e, rfl⟩
    | ok hours =>
      have n1 : t ≠ t1 := by
        intro e; rw [e, hs1] at hstoi; exact Except.noConfusion hstoi
      simp only
      rcases h2 : getline is1 ':' with ⟨_ | t2, is2⟩
      · rw [h2] at ht
        simp [n1] at ht
      · rw [h2] at ht
        simp only at ht ⊢
        cases hs2 : stoi t2 with
        | error e => exact ⟨e, rfl⟩
        | ok minutes =>
          have n2 : t ≠ t2 := by
            intro e; rw [e, hs2] at hstoi; exact Except.noConfusion hstoi
          simp only
          rcases h3 : getline is2 '\n' with ⟨_ | t3, is3⟩
          · rw [h3] at ht
            simp [n1, n2] at ht
          · rw [h3] at ht
            simp only [List.mem_cons, n1, n2, false_or, List.mem_singleton,
              List.not_mem_nil, or_false] at ht
            simp only
            rw [← ht, hstoi]
            exact ⟨_, rfl⟩

theorem parseDuration_invalid_token (s : List Char)
    (h : parseDuration s = Except.error StoiError.invalid_argument) :
    ∃ t ∈ tokensRead s, startsWithNumeral t = false := by
  simp only [parseDuration] at h
  simp only [tokensRead]
  rcases h1 : getline (istringstream s) ':' with ⟨_ | t1, is1⟩
  · rw [h1] at h
    exact Except.noConfusion h
  · rw [h1] at h
    simp only at h ⊢
    cases hs1 : stoi t1 with
    | error e =>
      rw [hs1] at h
      have he : e = StoiError.invalid_argument := Except.error.inj h
      rw [he] at hs1
      exact ⟨t1, List.mem_cons_self _ _, (stoi_invalid_iff t1).1 hs1⟩
    | ok hours =>
      rw [hs1] at h
      simp only at h
      rcases h2 : getline is1 ':' with ⟨_ | t2, is2⟩
      · rw [h2] at h
        exact Except.noConfusion h
      · rw [h2] at h
        simp only at h ⊢
        cases hs2 : stoi t2 with
        | error e =>
          rw [hs2] at h
          have he : e = StoiError.invalid_argument := Except.error.inj h
          rw [he] at hs2
          exact ⟨t2, List.mem_cons_of_mem _ (List.mem_cons_self _ _),
            (stoi_invalid_iff t2).1 hs2⟩
        | ok minutes =>
          rw [hs2] at h
          simp only at h
          rcases h3 : getline is2 '\n' with ⟨_ | t3, is3⟩
          · rw [h3] at h
            exact Except.noConfusion h
          · rw [h3] at h
            simp only at h ⊢
            cases hs3 : stoi t3 with
            | error e =>
              rw [hs3] at h
              have he : e = StoiError.invalid_argument := Except.error.inj h
              rw [he] at hs3
              exact ⟨t3, by simp, (stoi_invalid_iff t3).1 hs3⟩
            | ok seconds =>
              rw [hs3] at h
              exact Except.noConfusion h

/-- C11, amended: a token without a leading numeral fails.  For every input in which one of
the up to three tokens that `parseDuration` reads does not begin, after white space if any,
with an optional sign and a digit, `parseDuration` returns no duration but the error of a
failed `std::stoi`, and `std::invalid_argument` comes from such a token only; "ab:00:00" and
"01::03" fail this way.  What follows a leading numeral in a token is ignored: "1x:00:00"
gives 3600 seconds and "01:02:03:04" gives 3723 seconds. -/
theorem parseDuration_non_numeric :
    (∀ s : List Char, (∃ t ∈ tokensRead s, startsWithNumeral t = false) →
        ∃ e, parseDuration s = Except.error e)
    ∧ (∀ s : List Char, parseDuration s = Except.error StoiError.invalid_argument →
        ∃ t ∈ tokensRead s, startsWithNumeral t = false)
    ∧ parseDuration "ab:00:00".toList = Except.error StoiError.invalid_argument
    ∧ parseDuration "01::03".toList = Except.error StoiError.invalid_argument
    ∧ parseDuration "1x:00:00".toList = Except.ok 3600
    ∧ parseDuration "01:02:03:04".toList = Except.ok 3723 :=
  ⟨parseDuration_token_fails, parseDuration_invalid_token, rfl, rfl, rfl, rfl⟩

/-- Witness of C11: in "12:x5" the second token has no leading numeral. -/
theorem parseDuration_non_numeric_witness :
    tokensRead "12:x5".toList = ["12".toList, "x5".toList]
    ∧ startsWithNumeral "x5".toList = false
    ∧ ∃ e, parseDuration "12:x5".toList = Except.error e :=
  ⟨rfl, rfl,
    parseDuration_non_numeric.1 "12:x5".toList ⟨"x5".toList, by decide, rfl⟩⟩

/-- Counterexample to C11 as stated: the tokens read from "1x:00:00" are "1x", "00" and
"00", and "1x" is not a decimal integer numeral, yet `parseDuration` returns 3600 seconds;
likewise "01:02:03:04", whose third token is "03:04", gives 3723 seconds. -/
theorem parseDuration_non_numeric_counterexample :
    tokensRead "1x:00:00".toList = ["1x".toList, "00".toList, "00".toList]
    ∧ isIntNumeral "1x".toList = false
    ∧ parseDuration "1x:00:00".toList = Except.ok 3600
    ∧ tokensRead "01:02:03:04".toList = ["01".toList, "02".toList, "03:04".toList]
    ∧ isIntNumeral "03:04".toList = false
    ∧ parseDuration "01:02:03:04".toList = Except.ok 3723 :=
  ⟨rfl, rfl, rfl, rfl, rfl, rfl⟩

/-! ## Copy failures -/

theorem saveFile_result (env : Env) (w : World) (s d : List Char) :
    ((saveFile env w s d).1 = true ↔ (copy_file env w s d).1 = Except.ok ())
    ∧ ((saveFile env w s d).1 = false ↔ ∃ e, (copy_file env w s d).1 = Except.error e)
    ∧ (saveFile env w s d).2.files = (copy_file env w s d).2.files
    ∧ (saveFile env w s d).2.cout.length + (saveFile env w s d).2.cerr.length
        = w.cout.length + w.cerr.length + 1 := by
  have hc := copy_file_console env w s d
  unfold saveFile
  rcases hcf : copy_file env w s d with ⟨r, w1⟩
  rw [hcf] at hc
  simp only at hc
  cases r with
  | ok u => simp [hc.1, hc.2]; omega
  | error e => simp [hc.1, hc.2]; omega

theorem saveEntry_console (env : Env) (dst : List Char) (w : World) (e : DirEntry) :
    (saveEntry env dst w e).cout.length + (saveEntry env dst w e).cerr.length
      = w.cout.length + w.cerr.length + (if selected e = true then 1 else 0) := by
  cases h : selected e with
  | true =>
    rw [saveEntry_selected env dst w e h]
    simpa using (saveFile_result env w e.path (flattened dst e.path)).2.2.2
  | false => simp [saveEntry_not_selected env dst w e h]

theorem foldl_saveEntry_console (env : Env) (dst : List Char) (l : List DirEntry) (w : World) :
    (l.foldl (saveEntry env dst) w).cout.length + (l.foldl (saveEntry env dst) w).cerr.length
      = w.cout.length + w.cerr.length + (l.filter selected).length := by
  induction l generalizing w with
  | nil => simp
  | cons e es ih =>
    rw [List.foldl_cons, ih, saveEntry_console]
    cases h : selected e with
    | true => simp [List.filter_cons, h]; omega
    | false => simp [List.filter_cons, h]

/-- C12: whatever errors the copies raise, `saveAllSupportedFiles` goes on.  Two runs over
the same listing, under any two patterns of copy failures and on any two file systems, call
`copy_file` for the same sources with the same destinations in the same order; every
regular file of the listing with a supported extension is attempted; and every attempt
is reported, on `std::cout` or on `std::cerr`. -/
theorem copy_failures_skipped (env1 env2 : Env) (w1 w2 : World)
    (sourceDir destinationDir : List Char) :
    (env1.listing sourceDir = env2.listing sourceDir → w1.copies = w2.copies →
        (saveAllSupportedFiles env1 w1 sourceDir destinationDir).copies
          = (saveAllSupportedFiles env2 w2 sourceDir destinationDir).copies)
    ∧ (∀ e ∈ env1.listing sourceDir,
        e.is_regular_file = true → isSupported ((extension e.path).map tolower) = true →
        (e.path, destinationDir ++ "/".toList ++ filename e.path)
          ∈ (saveAllSupportedFiles env1 w1 sourceDir destinationDir).copies)
    ∧ (saveAllSupportedFiles env1 w1 sourceDir destinationDir).cout.length
        + (saveAllSupportedFiles env1 w1 sourceDir destinationDir).cerr.length
      = w1.cout.length + w1.cerr.length
        + ((env1.listing sourceDir).filter
            (fun e => e.is_regular_file && isSupported ((extension e.path).map tolower))).length := by
  refine ⟨?_, ?_, ?_⟩
  · intro hl hc
    rw [saveAllSupportedFiles_copies, saveAllSupportedFiles_copies, hl, hc]
  · intro e he hr hs
    rw [saveAllSupportedFiles_copies]
    apply List.mem_append_right
    rw [List.mem_map]
    exact ⟨e, List.mem_filter.2 ⟨he, by simp [selected, hr, hs]⟩, rfl⟩
  · exact foldl_saveEntry_console env1 destinationDir (env1.listing sourceDir) w1

/-- Witness of C12: every copy fails, and both media files are attempted all the same, each
failure giving one line on `std::cerr`. -/
theorem copy_failures_skipped_witness :
    (saveAllSupportedFiles
        (failingEnv [⟨"in/a.mp3".toList, true⟩, ⟨"in/b.png".toList, true⟩])
        (worldOf [("in/a.mp3".toList, "x".toList), ("in/b.png".toList, "y".toList)])
        "in".toList "out".toList).copies
      = [("in/a.mp3".toList, "out/a.mp3".toList), ("in/b.png".toList, "out/b.png".toList)]
    ∧ (saveAllSupportedFiles
        (failingEnv [⟨"in/a.mp3".toList, true⟩, ⟨"in/b.png".toList, true⟩])
        (worldOf [("in/a.mp3".toList, "x".toList), ("in/b.png".toList, "y".toList)])
        "in".toList "out".toList).cerr.length = 2
    ∧ (saveAllSupportedFiles
        (failingEnv [⟨"in/a.mp3".toList, true⟩, ⟨"in/b.png".toList, true⟩])
        (worldOf [("in/a.mp3".toList, "x".toList), ("in/b.png".toList, "y".toList)])
        "in".toList "out".toList).files "out/b.png".toList = none :=
  ⟨((copy_failures_skipped
      (failingEnv [⟨"in/a.mp3".toList, true⟩, ⟨"in/b.png".toList, true⟩])
      (quietEnv [⟨"in/a.mp3".toList, true⟩, ⟨"in/b.png".toList, true⟩])
      (worldOf [("in/a.mp3".toList, "x".toList), ("in/b.png".toList, "y".toList)])
      (worldOf [("in/a.mp3".toList, "x".toList), ("in/b.png".toList, "y".toList)])
      "in".toList "out".toList).1 rfl rfl).trans rfl,
    rfl, rfl⟩

/-- C15, amended: the list `supportedExtensions` that `isSupported` consults has exactly 21
entries, no two of them equal, and each entry is a dot followed by at least one character,
all of them lowercase letters or digits, so that putting an entry in lower case changes
nothing. -/
theorem supportedExtensions_shape :
    supportedExtensions.length = 21
    ∧ supportedExtensions.Nodup
    ∧ (∀ e ∈ supportedExtensions,
        e.head? = some '.' ∧ 2 ≤ e.length ∧ e.tail.all isLowerOrDigit = true
        ∧ e.map tolower = e) := by
  refine ⟨rfl, by decide, by decide⟩

/-- Witness of C15: ".m4a" is an entry, with a digit after the dot. -/
theorem supportedExtensions_shape_witness :
    ".m4a".toList.head? = some '.' ∧ ".m4a".toList.tail.all isLowerOrDigit = true :=
  ⟨(supportedExtensions_shape.2.2 ".m4a".toList (by decide)).1,
    (supportedExtensions_shape.2.2 ".m4a".toList (by decide)).2.2.1⟩

/-- Counterexample to C15 as stated: the list has 21 entries, not 20 (seven audio, seven
video and seven image extensions). -/
theorem supportedExtensions_shape_counterexample :
    supportedExtensions.length = 21 ∧ supportedExtensions.length ≠ 20 :=
  ⟨rfl, by decide⟩

/-! ## The driver -/

